import Mathlib

/-!
Verification of the normalization layers in `flax/nnx/nn/normalization.py`
(plus the Gemma example `RMSNorm` in `flax/nnx/examples/gemma/layers.py`).

Modelling conventions (shallow embedding):

* Tensors are total functions `ℕ → 𝕜` (or curried `ℕ → ℕ → 𝕜`, …) together
  with explicit size parameters; reductions are finite sums over
  `Finset.range`.  Multi-axis reductions are flattened into a single reduced
  index, which is sound in exact arithmetic (sums over the same multiset).
* Arithmetic is over an arbitrary `LinearOrderedField 𝕜` (instantiated with
  `ℚ` for executable witnesses and with `ℝ` where a claim genuinely needs
  square roots).  `lax.rsqrt` is an external primitive of the array engine,
  so it is passed as an explicit function argument `rsqrt : 𝕜 → 𝕜`;
  theorems that need its real semantics instantiate it with
  `fun t => (Real.sqrt t)⁻¹`.
* `jax.random.normal` draws are external: they enter as explicit arguments.
* dtype promotion, device collectives (`axis_name`) and masking are outside
  the embedding; the single-device, unmasked, real-valued path of each
  function is modelled.
-/

/-! ## Statistics engine: `_compute_stats` (normalization.py lines 48-129) -/

/-- `_abs_sq` (normalization.py lines 40-45), real branch: `lax.square(x)`. -/
def absSq {𝕜 : Type} [LinearOrderedField 𝕜] (x : 𝕜) : 𝕜 := x * x

/-- `x.mean(axes)` for one kept position: the reduced axes are flattened into
a single index ranging over `R` positions. -/
def statsMean {𝕜 : Type} [LinearOrderedField 𝕜] (R : ℕ) (f : ℕ → 𝕜) : 𝕜 :=
  (∑ i ∈ Finset.range R, f i) / (R : 𝕜)

/-- `_compute_stats` (normalization.py lines 48-129) at one kept position,
single-device (`axis_name=None`), no mask.  `R` is the number of reduced
positions and `f` enumerates the input values at them.  Returns `(mean, var)`:

* `use_mean ∧ use_fast_variance`: `var = max 0 (E[|x|^2] - |E[x]|^2)`
  (the `jnp.maximum(0.0, mu2 - _abs_sq(mu))` clamp, line 120);
* `use_mean ∧ ¬use_fast_variance`: `var = E[|x - E[x]|^2]` (lines 122-125);
* `¬use_mean`: `mean = 0`, `var = E[|x|^2]` (lines 127-128). -/
def computeStats {𝕜 : Type} [LinearOrderedField 𝕜]
    (useMean useFastVariance : Bool) (R : ℕ) (f : ℕ → 𝕜) : 𝕜 × 𝕜 :=
  if useMean then
    if useFastVariance then
      let mu := statsMean R f
      let mu2 := statsMean R (fun i => absSq (f i))
      (mu, max 0 (mu2 - absSq mu))
    else
      let mu := statsMean R f
      (mu, statsMean R (fun i => absSq (f i - mu)))
  else
    let var := statsMean R (fun i => absSq (f i))
    (0, var)

/-! ## Normalize primitive: `_normalize` (normalization.py lines 132-181) -/

/-- `_normalize` (normalization.py lines 132-181) at one output position.
`mean`/`var` are the (broadcast) statistics at this position, `scale`/`bias`
the (broadcast) parameter entries at this position (`none` when the layer
was built with `use_scale=False` / `use_bias=False`).  Mirrors the code:
`y = x - mean`; `mul = rsqrt(var + eps)`; `mul *= scale` if present;
`y *= mul`; `y += bias` if present. -/
def normalizeAt {𝕜 : Type} [LinearOrderedField 𝕜] (rsqrt : 𝕜 → 𝕜) (eps : 𝕜)
    (xv mean var : 𝕜) (scale bias : Option 𝕜) : 𝕜 :=
  let y := xv - mean
  let mul := rsqrt (var + eps)
  let mul := match scale with
    | some s => mul * s
    | none => mul
  let y := y * mul
  match bias with
  | some b => y + b
  | none => y

/-! ## LayerNorm (normalization.py lines 400-534) -/

/-- `LayerNorm.__call__` (normalization.py lines 505-534) with the default
`feature_axes = -1` and `reduction_axes` covering all non-batch axes
`(1, ..., ndim-1)`.  The input is indexed `(b, s, c)` where `b` is the batch
axis, `s` flattens all middle axes (`S` positions) and `c` is the channel
axis (`Ch` positions).  Statistics are computed per batch element over the
flattened `(s, c)` positions (`R = S * Ch`, reduced index `k ↦ (k / Ch, k % Ch)`),
then `_normalize` broadcasts them over the reduced axes and `scale`/`bias`
over the channel axis. -/
def layerNormCall {𝕜 : Type} [LinearOrderedField 𝕜] (rsqrt : 𝕜 → 𝕜) (eps : 𝕜)
    (useFastVariance : Bool) (S Ch : ℕ) (x : ℕ → ℕ → ℕ → 𝕜)
    (scale bias : Option (ℕ → 𝕜)) : ℕ → ℕ → ℕ → 𝕜 :=
  fun b s c =>
    let st := computeStats true useFastVariance (S * Ch)
      (fun k => x b (k / Ch) (k % Ch))
    normalizeAt rsqrt eps (x b s c) st.1 st.2
      (scale.map (fun sc => sc c)) (bias.map (fun bi => bi c))

/-! ## GroupNorm (normalization.py lines 658-856) -/

/-- `GroupNorm.__call__` (normalization.py lines 809-856) with the default
`reduction_axes = None` (so the reduction covers all middle axes plus the
channel axis) on an input indexed `(b, s, c)` as in `layerNormCall`.
`numGroups` is `self.num_groups`; `group_size = num_features // num_groups`
as set by `__init__`.  The code reshapes the channel axis into
`(num_groups, group_size)` (channel `c = g * group_size + j`), computes
statistics per `(b, g)` over the flattened `(s, j)` positions
(`R = S * group_size`), `jnp.repeat`s each group statistic across its member
channels (channel `c` belongs to group `c / group_size`), and normalizes at
full channel resolution with feature axis `-1`. -/
def groupNormCall {𝕜 : Type} [LinearOrderedField 𝕜] (rsqrt : 𝕜 → 𝕜) (eps : 𝕜)
    (useFastVariance : Bool) (numGroups S Ch : ℕ) (x : ℕ → ℕ → ℕ → 𝕜)
    (scale bias : Option (ℕ → 𝕜)) : ℕ → ℕ → ℕ → 𝕜 :=
  let groupSize := Ch / numGroups
  fun b s c =>
    let g := c / groupSize
    let st := computeStats true useFastVariance (S * groupSize)
      (fun k => x b (k / groupSize) (g * groupSize + k % groupSize))
    normalizeAt rsqrt eps (x b s c) st.1 st.2
      (scale.map (fun sc => sc c)) (bias.map (fun bi => bi c))

/-- `GroupNorm.__init__` validation (normalization.py lines 753-780), over
Python integers (`ℤ`, with Python floor-division semantics `Int.fdiv` /
`Int.fmod`).  Returns the resulting `(num_groups, group_size)` pair or an
error:

* both or neither of `num_groups` / `group_size` given: `ValueError`;
* `group_size` given: `num_features % group_size != 0` is a `ValueError`
  (and `group_size = 0` raises `ZeroDivisionError` at the `%`);
* `num_groups` given: `num_groups <= 0` or `num_features % num_groups != 0`
  is a `ValueError` (the `<= 0` test short-circuits before the `%`). -/
def groupNormInit (numFeatures : ℤ) (numGroups? groupSize? : Option ℤ) :
    Except String (ℤ × ℤ) :=
  match numGroups?, groupSize? with
  | none, none => .error "Either num_groups or group_size should be specified."
  | some _, some _ => .error "Either num_groups or group_size should be specified."
  | _, some g =>
    if g = 0 then .error "ZeroDivisionError"
    else if numFeatures.fmod g ≠ 0 then
      .error "Number of features is not multiple of the group size."
    else .ok (numFeatures.fdiv g, g)
  | some n, none =>
    if n ≤ 0 ∨ numFeatures.fmod n ≠ 0 then
      .error "Number of groups does not divide the number of channels."
    else .ok (n, numFeatures.fdiv n)

/-! ## BatchNorm (normalization.py lines 202-397) -/

/-- The running-statistics state of a `BatchNorm` instance: the `mean` and
`var` `BatchStat` buffers, one entry per feature. -/
structure BNState (𝕜 : Type) where
  mean : ℕ → 𝕜
  var : ℕ → 𝕜

/-- `BatchNorm.__init__` buffer initialization (normalization.py lines
305-306): `self.mean = BatchStat(jnp.zeros((num_features,), float32))`,
`self.var = BatchStat(jnp.ones((num_features,), float32))`. -/
def batchNormInit {𝕜 : Type} [LinearOrderedField 𝕜] : BNState 𝕜 :=
  { mean := fun _ => 0, var := fun _ => 1 }

/-- `first_from(use_running_average, self.use_running_average)`
(normalization.py lines 358-363): the per-call argument, when given, takes
precedence over the constructor attribute. -/
def firstFrom (callArg : Option Bool) (attr : Bool) : Bool :=
  match callArg with
  | some b => b
  | none => attr

/-- The batch statistics `_compute_stats(x, reduction_axes, ...)` of
`BatchNorm.__call__` (lines 370-378) for feature `c`: with the default
`axis = -1` the reduction axes are all non-channel axes, flattened here into
a single index over `N` positions. -/
def batchStats {𝕜 : Type} [LinearOrderedField 𝕜] (useFastVariance : Bool)
    (N : ℕ) (x : ℕ → ℕ → 𝕜) (c : ℕ) : 𝕜 × 𝕜 :=
  computeStats true useFastVariance N (fun i => x i c)

/-- `BatchNorm.__call__` (normalization.py lines 337-397) on input indexed
`(n, c)` (`n` flattens all non-channel axes, `c` the channel axis).  Returns
the normalized output together with the `BatchStat` state after the call:

* running-average mode: normalize with the stored buffers, state unchanged;
* otherwise: compute batch statistics, blend them into the buffers as
  `momentum * old + (1 - momentum) * new` (lines 380-385), and normalize
  with the just-computed batch statistics (lines 387-397). -/
def batchNormCall {𝕜 : Type} [LinearOrderedField 𝕜] (rsqrt : 𝕜 → 𝕜)
    (momentum eps : 𝕜) (useFastVariance : Bool) (N : ℕ) (st : BNState 𝕜)
    (callArg : Option Bool) (attrFlag : Bool)
    (scale bias : Option (ℕ → 𝕜)) (x : ℕ → ℕ → 𝕜) :
    (ℕ → ℕ → 𝕜) × BNState 𝕜 :=
  let useRunningAverage := firstFrom callArg attrFlag
  if useRunningAverage then
    (fun n c => normalizeAt rsqrt eps (x n c) (st.mean c) (st.var c)
        (scale.map (fun sc => sc c)) (bias.map (fun bi => bi c)),
     st)
  else
    let stats := batchStats useFastVariance N x
    let newState : BNState 𝕜 :=
      { mean := fun c => momentum * st.mean c + (1 - momentum) * (stats c).1,
        var := fun c => momentum * st.var c + (1 - momentum) * (stats c).2 }
    (fun n c => normalizeAt rsqrt eps (x n c) (stats c).1 (stats c).2
        (scale.map (fun sc => sc c)) (bias.map (fun bi => bi c)),
     newState)

/-! ## Gemma example RMSNorm (examples/gemma/layers.py lines 56-70) -/

/-- Gemma `RMSNorm.__call__` (layers.py lines 62-70) on input indexed
`(b, i)` (`b` flattens leading axes, `i` the last axis of size `D`):
`var = mean(square(x), axis=-1)`; `normed = x * reciprocal(sqrt(var + 1e-06))`;
result `normed * (1 + scale)` with the rank-1 `scale` broadcast over the
leading axes.  `self.scale` is initialized with `zeros_init()` (line 60).
The float literal `1e-06` is the exact rational `1/1000000` here. -/
def gemmaRMSNormCall {𝕜 : Type} [LinearOrderedField 𝕜] (rsqrt : 𝕜 → 𝕜)
    (D : ℕ) (scale : ℕ → 𝕜) (x : ℕ → ℕ → 𝕜) : ℕ → ℕ → 𝕜 :=
  fun b i =>
    let var := (∑ j ∈ Finset.range D, x b j * x b j) / (D : 𝕜)
    let normed := x b i * rsqrt (var + 1 / 1000000)
    normed * (1 + scale i)

/-! ## L2-normalize and WeightNorm (normalization.py lines 184-199, 859-984) -/

/-- `_l2_normalize(x, axis=reduction_axes, eps)` (normalization.py lines
184-199) as used by `WeightNorm.apply_weight_norm` with the default
`feature_axes = -1`: the parameter is indexed `(r, f)` where `r` flattens
the reduction axes (`R` positions) and `f` is the feature axis.  Each entry
is multiplied by `rsqrt((x * x).sum(reduction_axes) + eps)` of its feature
column. -/
def l2normalizeCols {𝕜 : Type} [LinearOrderedField 𝕜] (rsqrt : 𝕜 → 𝕜)
    (eps : 𝕜) (R : ℕ) (value : ℕ → ℕ → 𝕜) : ℕ → ℕ → 𝕜 :=
  fun r f => value r f * rsqrt ((∑ i ∈ Finset.range R, value i f * value i f) + eps)

/-- The parameter value written back into the wrapped layer by
`WeightNorm.__call__`'s `apply_weight_norm` (normalization.py lines
942-979): `value_bar = _l2_normalize(value, reduction_axes, eps)`, then
`value_bar *= scale` (reshaped per feature) when `use_scale` is on
(`scale = none` models `use_scale=False`). -/
def weightNormValue {𝕜 : Type} [LinearOrderedField 𝕜] (rsqrt : 𝕜 → 𝕜)
    (eps : 𝕜) (R : ℕ) (value : ℕ → ℕ → 𝕜) (scale : Option (ℕ → 𝕜)) :
    ℕ → ℕ → 𝕜 :=
  fun r f =>
    let vbar := l2normalizeCols rsqrt eps R value r f
    match scale with
    | some sc => vbar * sc f
    | none => vbar

/-! ## SpectralNorm (normalization.py lines 987-1185) -/

/-- The `try: u = state[u_var_name].value / except KeyError:
u = jax.random.normal(...)` lookup of `SpectralNorm.__call__` (lines
1140-1147).  `draw` is the vector returned by the external
`jax.random.normal(rngs.params(), (1, value.shape[-1]), param_dtype)` call
(standard-normal entries; the code stores it as drawn, without
normalization). -/
def lookupU {𝕜 : Type} (stored : Option (ℕ → 𝕜)) (draw : ℕ → 𝕜) : ℕ → 𝕜 :=
  match stored with
  | some u => u
  | none => draw

/-- The `try: sigma = state[sigma_var_name].value / except KeyError:
sigma = jnp.ones((), param_dtype)` lookup of `SpectralNorm.__call__`
(lines 1156-1159). -/
def lookupSigma {𝕜 : Type} [LinearOrderedField 𝕜] (stored : Option 𝕜) : 𝕜 :=
  match stored with
  | some s => s
  | none => 1

/-- `_l2_normalize(x, eps)` with the default `axis=None` on a `(1, k)` row
vector (lines 1162-1165): the whole vector is scaled by
`rsqrt(sum(x * x) + eps)`. -/
def l2normalizeVec {𝕜 : Type} [LinearOrderedField 𝕜] (rsqrt : 𝕜 → 𝕜)
    (eps : 𝕜) (k : ℕ) (v : ℕ → 𝕜) : ℕ → 𝕜 :=
  fun i => v i * rsqrt ((∑ t ∈ Finset.range k, v t * v t) + eps)

/-- One power-iteration step body plus the loop
`for _ in range(self.n_steps)` (normalization.py lines 1161-1165) on an
`m × n` matrix `value`:
`v = _l2_normalize(matmul(u, value.T), eps)` (a `(1, m)` row),
`u = _l2_normalize(matmul(v, value), eps)` (a `(1, n)` row).
Returns the final `(u, v)` pair.  `lax.stop_gradient` (lines 1167-1168) is
the identity on values. -/
def powerLoop {𝕜 : Type} [LinearOrderedField 𝕜] (rsqrt : 𝕜 → 𝕜) (eps : 𝕜)
    (m n : ℕ) (value : ℕ → ℕ → 𝕜) :
    ℕ → (ℕ → 𝕜) → (ℕ → 𝕜) → ((ℕ → 𝕜) × (ℕ → 𝕜))
  | 0, u, v => (u, v)
  | steps + 1, u, _ =>
    let v' := l2normalizeVec rsqrt eps m
      (fun i => ∑ j ∈ Finset.range n, u j * value i j)
    let u' := l2normalizeVec rsqrt eps n
      (fun j => ∑ i ∈ Finset.range m, v' i * value i j)
    powerLoop rsqrt eps m n value steps u' v'

/-- `sigma = matmul(matmul(v, value), transpose(u))[0, 0]` (line 1170)
computed from the power-iteration result started at `u0`. -/
def spectralSigma {𝕜 : Type} [LinearOrderedField 𝕜] (rsqrt : 𝕜 → 𝕜) (eps : 𝕜)
    (nSteps m n : ℕ) (value : ℕ → ℕ → 𝕜) (u0 : ℕ → 𝕜) : 𝕜 :=
  let uv := powerLoop rsqrt eps m n value nSteps u0 (fun _ => 0)
  ∑ j ∈ Finset.range n, (∑ i ∈ Finset.range m, uv.2 i * value i j) * uv.1 j

/-- The per-parameter `spectral_normalize` transform of
`SpectralNorm.__call__` (normalization.py lines 1116-1180) on an eligible
`m × n` matrix parameter (`value.ndim == 2`; rank > 2 tensors are flattened
to a matrix before this point).  Mirrors the code: skip when
`self.n_steps < 1`; look up `u` (or use the fresh RNG `draw`) and `sigma`
(or default `1`, a value the code then overwrites); run the power-iteration
loop; recompute `sigma`; divide by `jnp.where(sigma != 0, sigma, 1)`. -/
def spectralNormalizeValue {𝕜 : Type} [LinearOrderedField 𝕜] (rsqrt : 𝕜 → 𝕜)
    (eps : 𝕜) (nSteps m n : ℕ) (value : ℕ → ℕ → 𝕜)
    (storedU : Option (ℕ → 𝕜)) (draw : ℕ → 𝕜) (storedSigma : Option 𝕜) :
    ℕ → ℕ → 𝕜 :=
  if nSteps < 1 then value
  else
    let u0 := lookupU storedU draw
    let _sigma0 := lookupSigma storedSigma
    let sigma := spectralSigma rsqrt eps nSteps m n value u0
    fun i j => value i j / (if sigma ≠ 0 then sigma else 1)

/-! ## `_canonicalize_axes` (normalization.py lines 33-37)

The function body is `tuple({rank + axis if axis < 0 else axis for axis in
axes})`: a CPython set comprehension followed by `tuple`, whose element
order is the CPython hash-table slot order.  Its docstring asserts the
result is "deduplicated, sorted, and positive".  To settle that sentence
the CPython `set` implementation (Objects/setobject.c) is modelled for
non-negative small integers (which hash to themselves): open addressing
with `LINEAR_PROBES = 9` consecutive probes, perturbed rehashing
`perturb >>= 5; i = (i * 5 + 1 + perturb) & mask`, initial table size 8,
and growth to `used * 4` (doubling from 8) once `fill * 5 >= mask * 3`.
Iteration yields keys in table-slot order.  The model was cross-checked
against CPython 3.x outputs on a battery of inputs. -/

/-- Outcome of probing for a key: an empty slot index to insert at, or the
key is already present. -/
inductive ProbeHit where
  | empty (j : ℕ)
  | present

/-- The inner `do { ... } while (probes--)` scan of `set_add_entry`: check
the entries at indices `i, i+1, ..., i+count` in order for an empty slot or
the key itself; `none` means all were occupied by other keys. -/
def scanEntries (table : List (Option ℕ)) (x : ℕ) : ℕ → ℕ → Option ProbeHit
  | i, 0 =>
    match table.getD i none with
    | none => some (.empty i)
    | some y => if y = x then some .present else none
  | i, count + 1 =>
    match table.getD i none with
    | none => some (.empty i)
    | some y => if y = x then some .present else scanEntries table x (i + 1) count

/-- The outer `while (1)` probe loop of `set_add_entry`: at index `i` scan
`LINEAR_PROBES` extra consecutive entries when they fit below the mask,
otherwise just the entry at `i`; on failure recompute
`perturb >>= 5; i = (i * 5 + 1 + perturb) & mask`.  The fuel is generous:
CPython guarantees an empty slot exists (load factor below 3/5) and the
recurrence visits every slot once `perturb` reaches 0. -/
def probeLoop (table : List (Option ℕ)) (x : ℕ) : ℕ → ℕ → ℕ → Option ProbeHit
  | 0, _, _ => none
  | fuel + 1, i, perturb =>
    let mask := table.length - 1
    let probes := if i + 9 ≤ mask then 9 else 0
    match scanEntries table x i probes with
    | some h => some h
    | none =>
      let perturb' := perturb >>> 5
      probeLoop table x fuel ((i * 5 + 1 + perturb') % (mask + 1)) perturb'

/-- The scan of `set_insert_clean` (used only while rehashing into a fresh
table, where no duplicates exist): find an empty slot among
`i, i+1, ..., i+count`. -/
def scanEmpty (table : List (Option ℕ)) : ℕ → ℕ → Option ℕ
  | i, 0 =>
    match table.getD i none with
    | none => some i
    | some _ => none
  | i, count + 1 =>
    match table.getD i none with
    | none => some i
    | some _ => scanEmpty table (i + 1) count

/-- The probe loop of `set_insert_clean`. -/
def cleanProbeLoop (table : List (Option ℕ)) : ℕ → ℕ → ℕ → Option ℕ
  | 0, _, _ => none
  | fuel + 1, i, perturb =>
    let mask := table.length - 1
    let probes := if i + 9 ≤ mask then 9 else 0
    match scanEmpty table i probes with
    | some j => some j
    | none =>
      let perturb' := perturb >>> 5
      cleanProbeLoop table fuel ((i * 5 + 1 + perturb') % (mask + 1)) perturb'

/-- `set_insert_clean(table, x)`: place `x` at the first empty slot of its
probe sequence (unreachable fuel exhaustion leaves the table unchanged). -/
def insertClean (table : List (Option ℕ)) (x : ℕ) : List (Option ℕ) :=
  match cleanProbeLoop table (table.length + 32) (x % table.length) x with
  | some j => table.set j (some x)
  | none => table

/-- The doubling loop of `set_table_resize`. -/
def growTableSize (minused : ℕ) : ℕ → ℕ → ℕ
  | 0, size => size
  | fuel + 1, size => if size ≤ minused then growTableSize minused fuel (size * 2) else size

/-- `set_table_resize`: the new table size doubles from `PySet_MINSIZE = 8`
while it is at most `minused`. -/
def newTableSize (minused : ℕ) : ℕ :=
  growTableSize minused 64 8

/-- Rehash every key of `table` (in slot order) into a fresh table of
`newTableSize minused` slots via `set_insert_clean`. -/
def setResize (table : List (Option ℕ)) (minused : ℕ) : List (Option ℕ) :=
  (table.filterMap id).foldl insertClean (List.replicate (newTableSize minused) none)

/-- A CPython `set` of non-negative small integers: the slot table and the
`fill` count (with no deletions, `fill = used`). -/
structure PySet where
  table : List (Option ℕ)
  fill : ℕ

/-- A freshly created empty set: 8 slots (`PySet_MINSIZE`). -/
def emptyPySet : PySet := ⟨List.replicate 8 none, 0⟩

/-- `set_add_key`: probe starting at `hash & mask` (small non-negative ints
hash to themselves); if the key is absent insert it at the empty slot found,
then resize to `used * 4` (`used * 2` beyond 50000 entries) when
`fill * 5 >= mask * 3`. -/
def setAdd (s : PySet) (x : ℕ) : PySet :=
  let mask := s.table.length - 1
  match probeLoop s.table x (s.table.length + 32) (x % (mask + 1)) x with
  | some .present => s
  | some (.empty j) =>
    let table := s.table.set j (some x)
    let fill := s.fill + 1
    if fill * 5 ≥ mask * 3 then
      ⟨setResize table (if fill > 50000 then fill * 2 else fill * 4), fill⟩
    else
      ⟨table, fill⟩
  | none => s

/-- `_canonicalize_axes(rank, axes)` (normalization.py lines 33-37):
`tuple({rank + axis if axis < 0 else axis for axis in axes})`.  The
comprehension inserts the canonicalized axes left to right into a fresh
set; `tuple` reads the slots in order.  (For in-range axes the canonical
values are non-negative, so the `Int.toNat` round-trip is faithful.) -/
def canonicalizeAxes (rank : ℤ) (axes : List ℤ) : List ℤ :=
  let canon := axes.map (fun a => if a < 0 then rank + a else a)
  let s := canon.foldl (fun st a => setAdd st a.toNat) emptyPySet
  (s.table.filterMap id).map (fun n => (n : ℤ))

/-! ## Theorems -/

/-- Claim C3: for every input tensor and axis set (modelled as the `R`
reduced positions enumerated by `f`, with `R > 0` since tensor shapes are
positive), the variance returned by `_compute_stats` is non-negative: the
fast path clamps `E[|x|^2] - |E[x]|^2` to zero before returning, and the
two-pass path (as well as the `use_mean=False` path) is a mean of
non-negative squared magnitudes. -/
theorem computeStats_var_nonneg (useMean useFastVariance : Bool) (R : ℕ)
    (f : ℕ → ℚ) (_hR : 0 < R) :
    0 ≤ (computeStats useMean useFastVariance R f).2 := by
  have hmean : ∀ g : ℕ → ℚ, 0 ≤ statsMean R (fun i => absSq (g i)) := by
    intro g
    apply div_nonneg _ (Nat.cast_nonneg R)
    exact Finset.sum_nonneg fun i _ => mul_self_nonneg (g i)
  cases useMean <;> cases useFastVariance <;>
    simp only [computeStats, Bool.false_eq_true, if_true, if_false]
  · exact hmean f
  · exact hmean f
  · exact hmean fun i => f i - statsMean R f
  · exact le_max_left 0 _

theorem computeStats_var_nonneg_witness :
    0 < 3 ∧ 0 ≤ (computeStats true true 3 (fun i => (i : ℚ) - 1)).2 :=
  ⟨by norm_num, computeStats_var_nonneg true true 3 (fun i => (i : ℚ) - 1) (by norm_num)⟩

/-- Claim C6 (code bug): `_canonicalize_axes`'s docstring promises a
"deduplicated, sorted, and positive" tuple, but the implementation
`tuple({...})` inherits CPython's set iteration order, which is not sorted
once a canonical axis reaches the initial table size 8: for `rank = 9` and
`axes = (1, 8)` the axis 8 hashes to slot `8 & 7 = 0` and precedes axis 1
in slot order, so the function returns `(8, 1)` — deduplicated and
non-negative but not sorted ascending (verified against CPython 3.x). -/
theorem canonicalizeAxes_not_sorted :
    canonicalizeAxes 9 [1, 8] = [8, 1] ∧
      ¬ List.Sorted (· ≤ ·) (canonicalizeAxes 9 [1, 8]) := by
  constructor
  · decide
  · decide

/-- Claim C8: `GroupNorm.__init__` rejects specifications where both or
neither of `num_groups`/`group_size` are given and where the channel count
is not evenly divisible by the given `num_groups` (or `group_size`); valid
specifications (exactly one given, non-zero — positive for `num_groups` —
and dividing `num_features`) succeed, and every successful construction
satisfies `num_groups * group_size = num_features`. -/
theorem groupNormInit_validation (nf : ℤ) (ng gs : Option ℤ) :
    ((ng = none ∧ gs = none) → ∀ p, groupNormInit nf ng gs ≠ .ok p) ∧
    ((ng ≠ none ∧ gs ≠ none) → ∀ p, groupNormInit nf ng gs ≠ .ok p) ∧
    (∀ g, ng = none → gs = some g → ¬ g ∣ nf →
      ∀ p, groupNormInit nf ng gs ≠ .ok p) ∧
    (∀ n, ng = some n → gs = none → ¬ n ∣ nf →
      ∀ p, groupNormInit nf ng gs ≠ .ok p) ∧
    (∀ g, ng = none → gs = some g → g ≠ 0 → g ∣ nf →
      groupNormInit nf ng gs = .ok (nf.fdiv g, g)) ∧
    (∀ n, ng = some n → gs = none → 0 < n → n ∣ nf →
      groupNormInit nf ng gs = .ok (n, nf.fdiv n)) ∧
    (∀ p, groupNormInit nf ng gs = .ok p → p.1 * p.2 = nf) := by
  have hdvd_fmod : ∀ a b : ℤ, b ∣ a → a.fmod b = 0 := by
    intro a b ⟨k, hk⟩
    subst hk
    rw [mul_comm]
    exact Int.mul_fmod_left k b
  have hfmod_dvd : ∀ a b : ℤ, a.fmod b = 0 → b ∣ a := by
    intro a b h
    have := Int.fmod_add_fdiv a b
    rw [h, zero_add] at this
    exact ⟨a.fdiv b, this.symm⟩
  refine ⟨?_, ?_, ?_, ?_, ?_, ?_, ?_⟩
  · rintro ⟨h1, h2⟩ p
    subst h1; subst h2
    simp [groupNormInit]
  · rintro ⟨h1, h2⟩ p
    match ng, gs with
    | some a, some b => simp [groupNormInit]
    | none, _ => exact absurd rfl h1
    | some _, none => exact absurd rfl h2
  · rintro g h1 h2 hnd p
    subst h1; subst h2
    have : nf.fmod g ≠ 0 := fun h => hnd (hfmod_dvd nf g h)
    by_cases hg : g = 0 <;> simp [groupNormInit, hg, this]
  · rintro n h1 h2 hnd p
    subst h1; subst h2
    have : nf.fmod n ≠ 0 := fun h => hnd (hfmod_dvd nf n h)
    simp [groupNormInit, this]
  · rintro g h1 h2 hg hd
    subst h1; subst h2
    simp [groupNormInit, hg, hdvd_fmod nf g hd]
  · rintro n h1 h2 hn hd
    subst h1; subst h2
    simp [groupNormInit, hdvd_fmod nf n hd, not_le.mpr hn]
  · rintro p hp
    match ng, gs with
    | none, none => simp [groupNormInit] at hp
    | some a, some b => simp [groupNormInit] at hp
    | none, some g =>
      by_cases hg : g = 0
      · simp [groupNormInit, hg] at hp
      · by_cases hm : nf.fmod g = 0
        · simp [groupNormInit, hg, hm] at hp
          have hd : g ∣ nf := hfmod_dvd nf g hm
          rw [← hp]
          simp only
          rw [Int.fdiv_eq_ediv_of_dvd hd]
          exact Int.ediv_mul_cancel hd
        · simp [groupNormInit, hg, hm] at hp
    | some n, none =>
      by_cases hn : n ≤ 0
      · simp [groupNormInit, hn] at hp
      · by_cases hm : nf.fmod n = 0
        · simp [groupNormInit, hn, hm] at hp
          have hd : n ∣ nf := hfmod_dvd nf n hm
          rw [← hp]
          simp only
          rw [Int.fdiv_eq_ediv_of_dvd hd]
          exact Int.mul_ediv_cancel' hd
        · simp [groupNormInit, hn, hm] at hp

theorem groupNormInit_validation_witness :
    ((some 3 : Option ℤ) = none → False) ∧
    groupNormInit 6 (some 3) none = .ok (3, 2) ∧ (3 : ℤ) * 2 = 6 ∧
    (∀ p, groupNormInit 6 none none ≠ .ok p) ∧
    (∀ p, groupNormInit 6 (some 4) none ≠ .ok p) := by
  have h := groupNormInit_validation 6 (some 3) none
  have h0 := groupNormInit_validation 6 none none
  have h4 := groupNormInit_validation 6 (some 4) none
  refine ⟨?_, ?_, ?_, ?_, ?_⟩
  · intro hc
    cases hc
  · have := h.2.2.2.2.2.1 3 rfl rfl (by norm_num) (by norm_num)
    simpa using this
  · norm_num
  · exact h0.1 ⟨rfl, rfl⟩
  · exact h4.2.2.2.1 4 rfl rfl (by decide)

/-- Claim C2: in non-running mode (the resolved `use_running_average` flag
is false), `BatchNorm.__call__` updates the stored running buffers to
`momentum * old + (1 - momentum) * new` where `new` is the `(mean, var)`
just computed from the input, and normalizes the output with those
just-computed batch statistics — not with the updated running averages. -/
theorem batchNorm_training_ema_and_output {𝕜 : Type} [LinearOrderedField 𝕜]
    (rsqrt : 𝕜 → 𝕜) (momentum eps : 𝕜) (useFastVariance : Bool) (N : ℕ)
    (st : BNState 𝕜) (callArg : Option Bool) (attrFlag : Bool)
    (scale bias : Option (ℕ → 𝕜)) (x : ℕ → ℕ → 𝕜)
    (hmode : firstFrom callArg attrFlag = false) :
    (∀ c, (batchNormCall rsqrt momentum eps useFastVariance N st callArg
        attrFlag scale bias x).2.mean c =
      momentum * st.mean c + (1 - momentum) * (batchStats useFastVariance N x c).1) ∧
    (∀ c, (batchNormCall rsqrt momentum eps useFastVariance N st callArg
        attrFlag scale bias x).2.var c =
      momentum * st.var c + (1 - momentum) * (batchStats useFastVariance N x c).2) ∧
    (∀ n c, (batchNormCall rsqrt momentum eps useFastVariance N st callArg
        attrFlag scale bias x).1 n c =
      normalizeAt rsqrt eps (x n c) (batchStats useFastVariance N x c).1
        (batchStats useFastVariance N x c).2
        (scale.map (fun sc => sc c)) (bias.map (fun bi => bi c))) := by
  refine ⟨fun c => ?_, fun c => ?_, fun n c => ?_⟩ <;>
    simp [batchNormCall, hmode]

theorem batchNorm_training_ema_and_output_witness :
    firstFrom (some false) true = false ∧
    (∀ c, (batchNormCall (id : ℚ → ℚ) (1/2) 0 true 2 batchNormInit
        (some false) true none none (fun n _ => (n : ℚ))).2.mean c =
      (1/2) * (batchNormInit (𝕜 := ℚ)).mean c +
        (1 - 1/2) * (batchStats true 2 (fun n _ => (n : ℚ)) c).1) :=
  ⟨rfl,
   (batchNorm_training_ema_and_output (id : ℚ → ℚ) (1/2) 0 true 2
      batchNormInit (some false) true none none (fun n _ => (n : ℚ)) rfl).1⟩

/-- Claim C10: a newly constructed `BatchNorm` has its running mean buffer
initialized to zeros and its running variance buffer to ones (one entry per
feature; the buffers are created as `(num_features,)`-shaped float32 arrays),
so a first call in running-average mode normalizes the input with mean 0 and
variance 1 and leaves the buffers unchanged. -/
theorem batchNorm_init_buffers_and_first_running_call {𝕜 : Type}
    [LinearOrderedField 𝕜] (rsqrt : 𝕜 → 𝕜) (momentum eps : 𝕜)
    (useFastVariance : Bool) (N : ℕ) (scale bias : Option (ℕ → 𝕜))
    (x : ℕ → ℕ → 𝕜) :
    (∀ c, (batchNormInit (𝕜 := 𝕜)).mean c = 0) ∧
    (∀ c, (batchNormInit (𝕜 := 𝕜)).var c = 1) ∧
    (∀ n c, (batchNormCall rsqrt momentum eps useFastVariance N batchNormInit
        (some true) false scale bias x).1 n c =
      normalizeAt rsqrt eps (x n c) 0 1
        (scale.map (fun sc => sc c)) (bias.map (fun bi => bi c))) ∧
    (batchNormCall rsqrt momentum eps useFastVariance N batchNormInit
        (some true) false scale bias x).2 = batchNormInit := by
  refine ⟨fun c => rfl, fun c => rfl, fun n c => ?_, ?_⟩ <;>
    simp [batchNormCall, firstFrom, batchNormInit]

/-- Claim C1: `GroupNorm` with `num_groups = 1` produces, at every valid
input position, exactly the same output as `LayerNorm` with the same
epsilon, scale, bias, fast-variance mode and reduction axes (all non-batch
axes including the channel axis).  With one group, `group_size = Ch`, every
channel belongs to group 0, and the group statistics are computed over
precisely the positions LayerNorm reduces over, so the two computations
coincide (exact arithmetic; the floating-point graphs reduce over the same
elements). -/
theorem groupNorm_single_group_eq_layerNorm {𝕜 : Type} [LinearOrderedField 𝕜]
    (rsqrt : 𝕜 → 𝕜) (eps : 𝕜) (useFastVariance : Bool) (S Ch : ℕ)
    (x : ℕ → ℕ → ℕ → 𝕜) (scale bias : Option (ℕ → 𝕜)) (b s c : ℕ)
    (hc : c < Ch) :
    groupNormCall rsqrt eps useFastVariance 1 S Ch x scale bias b s c =
      layerNormCall rsqrt eps useFastVariance S Ch x scale bias b s c := by
  simp only [groupNormCall, layerNormCall, Nat.div_one, Nat.div_eq_of_lt hc,
    zero_mul, zero_add]

theorem groupNorm_single_group_eq_layerNorm_witness :
    0 < 2 ∧
    groupNormCall (id : ℚ → ℚ) 1 true 1 1 2 (fun _ _ c => (c : ℚ)) none none 0 0 0 =
      layerNormCall (id : ℚ → ℚ) 1 true 1 2 (fun _ _ c => (c : ℚ)) none none 0 0 0 :=
  ⟨by norm_num,
   groupNorm_single_group_eq_layerNorm (id : ℚ → ℚ) 1 true 1 2
     (fun _ _ c => (c : ℚ)) none none 0 0 0 (by norm_num)⟩

/-- Claim C9: for every eligible parameter (rank 2, at least one power
iteration step), the value written back by `SpectralNorm` is `W / sigma`,
except when the computed `sigma` is exactly zero, in which case the divisor
is `1` and `W` is unchanged (`value /= jnp.where(sigma != 0, sigma, 1)`,
line 1172); the effective divisor is never zero. -/
theorem spectralNorm_divide_guard (rsqrt : ℚ → ℚ) (eps : ℚ) (nSteps m n : ℕ)
    (value : ℕ → ℕ → ℚ) (storedU : Option (ℕ → ℚ)) (draw : ℕ → ℚ)
    (storedSigma : Option ℚ) (hsteps : 1 ≤ nSteps) :
    (spectralSigma rsqrt eps nSteps m n value (lookupU storedU draw) ≠ 0 →
      ∀ i j, spectralNormalizeValue rsqrt eps nSteps m n value storedU draw
          storedSigma i j =
        value i j / spectralSigma rsqrt eps nSteps m n value (lookupU storedU draw)) ∧
    (spectralSigma rsqrt eps nSteps m n value (lookupU storedU draw) = 0 →
      ∀ i j, spectralNormalizeValue rsqrt eps nSteps m n value storedU draw
          storedSigma i j = value i j) ∧
    (if spectralSigma rsqrt eps nSteps m n value (lookupU storedU draw) ≠ 0
      then spectralSigma rsqrt eps nSteps m n value (lookupU storedU draw)
      else 1) ≠ 0 := by
  have hlt : ¬ nSteps < 1 := by omega
  refine ⟨fun hs i j => ?_, fun hs i j => ?_, ?_⟩
  · simp [spectralNormalizeValue, hlt, hs]
  · simp [spectralNormalizeValue, hlt, hs]
  · by_cases hs : spectralSigma rsqrt eps nSteps m n value (lookupU storedU draw) = 0
    · simp [hs]
    · simp [hs]

theorem spectralNorm_divide_guard_witness :
    1 ≤ 1 ∧
    ((if spectralSigma (id : ℚ → ℚ) 0 1 1 1 (fun _ _ => 1)
          (lookupU (some fun _ => 1) (fun _ => 0)) ≠ 0
      then spectralSigma (id : ℚ → ℚ) 0 1 1 1 (fun _ _ => 1)
          (lookupU (some fun _ => 1) (fun _ => 0))
      else 1) ≠ 0) :=
  ⟨le_refl 1,
   (spectralNorm_divide_guard (id : ℚ → ℚ) 0 1 1 1 (fun _ _ => 1)
      (some fun _ => 1) (fun _ => 0) none (le_refl 1)).2.2⟩

/-- Claim C7, counterexample: the lazily initialized `u` is the raw
`jax.random.normal` draw, stored without normalization, so it is not in
general a unit vector: for the concrete (possible) draw `(1, 1)` of length
2, the initialized `u` has squared L2 norm `2 ≠ 1`. -/
theorem spectralNorm_init_u_not_unit_norm :
    ¬ (∑ j ∈ Finset.range 2,
        lookupU (none : Option (ℕ → ℚ)) (fun _ => 1) j *
          lookupU (none : Option (ℕ → ℚ)) (fun _ => 1) j) = 1 := by
  norm_num [lookupU, Finset.sum_range_succ]

/-- Claim C7, amended: for an eligible parameter with no persisted
power-iteration state, the lazily initialized estimate `u` is exactly the
raw standard-normal vector drawn via the RNG source (shape `(1, d)`, not
normalized to unit length — it is only L2-normalized inside the subsequent
power-iteration update), and the missing `sigma` defaults to the scalar `1`;
in particular the call behaves as if the drawn vector had been the stored
`u`. -/
theorem spectralNorm_lazy_init (rsqrt : ℚ → ℚ) (eps : ℚ) (nSteps m n : ℕ)
    (value : ℕ → ℕ → ℚ) (draw : ℕ → ℚ) (storedSigma : Option ℚ) :
    lookupU (none : Option (ℕ → ℚ)) draw = draw ∧
    lookupSigma (none : Option ℚ) = 1 ∧
    spectralNormalizeValue rsqrt eps nSteps m n value none draw storedSigma =
      spectralNormalizeValue rsqrt eps nSteps m n value (some draw) draw
        storedSigma :=
  ⟨rfl, rfl, rfl⟩

/-! ## Real-valued norm properties (WeightNorm, Gemma RMSNorm) -/

/-- Property-side measurement: the squared L2 norm of one feature column of
a parameter, summed along the (flattened) reduction axes. -/
def l2NormSq (w : ℕ → ℕ → ℝ) (R f : ℕ) : ℝ :=
  ∑ r ∈ Finset.range R, w r f * w r f

lemma one_sub_sqrt_ratio_bounds (S eps : ℝ) (hS : 1 ≤ S) (heps : 0 < eps) :
    0 ≤ 1 - Real.sqrt (S / (S + eps)) ∧
      1 - Real.sqrt (S / (S + eps)) ≤ eps := by
  have hpos : (0 : ℝ) < S + eps := by linarith
  have hq0 : 0 ≤ S / (S + eps) := div_nonneg (by linarith) hpos.le
  have hq1 : S / (S + eps) ≤ 1 := by
    rw [div_le_one hpos]
    linarith
  have hsq1 : Real.sqrt (S / (S + eps)) ≤ 1 := by
    rw [← Real.sqrt_one]
    exact Real.sqrt_le_sqrt hq1
  have hqle : S / (S + eps) ≤ Real.sqrt (S / (S + eps)) := by
    calc S / (S + eps) = Real.sqrt ((S / (S + eps)) ^ 2) := (Real.sqrt_sq hq0).symm
      _ ≤ Real.sqrt (S / (S + eps)) := Real.sqrt_le_sqrt (by nlinarith)
  have hrem : 1 - S / (S + eps) = eps / (S + eps) := by
    field_simp
  refine ⟨by linarith, ?_⟩
  have : eps / (S + eps) ≤ eps := by
    rw [div_le_iff₀ hpos]
    nlinarith
  linarith [hrem ▸ (by linarith : 1 - Real.sqrt (S / (S + eps)) ≤ 1 - S / (S + eps))]

/-- Claim C4: after `WeightNorm` rewrites a parameter, each feature
column of the stored value has squared L2 norm `S / (S + eps)` along the
reduction axes (where `S` is the column's original squared norm), scaled by
`scale^2` when the scale parameter is enabled; hence for non-degenerate
columns (`S ≥ 1`) the measured L2 norm equals `1` — or the corresponding
(non-negative) `scale` entry — within the `eps`-governed tolerance. -/
theorem weightNorm_column_norms (eps : ℝ) (R : ℕ) (value : ℕ → ℕ → ℝ)
    (f : ℕ) (heps : 0 < eps) :
    l2NormSq (weightNormValue (fun t => (Real.sqrt t)⁻¹) eps R value none) R f =
      l2NormSq value R f / (l2NormSq value R f + eps) ∧
    (∀ sc : ℕ → ℝ,
      l2NormSq (weightNormValue (fun t => (Real.sqrt t)⁻¹) eps R value (some sc)) R f =
        sc f * sc f * (l2NormSq value R f / (l2NormSq value R f + eps))) ∧
    (1 ≤ l2NormSq value R f →
      |Real.sqrt (l2NormSq (weightNormValue (fun t => (Real.sqrt t)⁻¹) eps R
          value none) R f) - 1| ≤ eps) ∧
    (∀ sc : ℕ → ℝ, 1 ≤ l2NormSq value R f → 0 ≤ sc f →
      |Real.sqrt (l2NormSq (weightNormValue (fun t => (Real.sqrt t)⁻¹) eps R
          value (some sc)) R f) - sc f| ≤ sc f * eps) := by
  set S := l2NormSq value R f with hSdef
  have hS0 : 0 ≤ S :=
    Finset.sum_nonneg fun i _ => mul_self_nonneg (value i f)
  have hX : (0 : ℝ) ≤ S + eps := by linarith
  have hc2 : (Real.sqrt (S + eps))⁻¹ * (Real.sqrt (S + eps))⁻¹ = (S + eps)⁻¹ := by
    rw [← mul_inv, Real.mul_self_sqrt hX]
  have ha : l2NormSq (weightNormValue (fun t => (Real.sqrt t)⁻¹) eps R value none) R f =
      S / (S + eps) := by
    unfold l2NormSq weightNormValue l2normalizeCols
    simp only
    have hterm : ∀ r, value r f * (Real.sqrt ((∑ i ∈ Finset.range R, value i f * value i f) + eps))⁻¹ *
        (value r f * (Real.sqrt ((∑ i ∈ Finset.range R, value i f * value i f) + eps))⁻¹) =
        value r f * value r f *
          ((Real.sqrt ((∑ i ∈ Finset.range R, value i f * value i f) + eps))⁻¹ *
            (Real.sqrt ((∑ i ∈ Finset.range R, value i f * value i f) + eps))⁻¹) :=
      fun r => by ring
    rw [Finset.sum_congr rfl fun r _ => hterm r, ← Finset.sum_mul]
    rw [show (∑ i ∈ Finset.range R, value i f * value i f) = S from rfl, hc2]
    exact (div_eq_mul_inv S (S + eps)).symm
  have hb : ∀ sc : ℕ → ℝ,
      l2NormSq (weightNormValue (fun t => (Real.sqrt t)⁻¹) eps R value (some sc)) R f =
        sc f * sc f * (S / (S + eps)) := by
    intro sc
    unfold l2NormSq weightNormValue l2normalizeCols
    simp only
    have hterm : ∀ r, value r f * (Real.sqrt ((∑ i ∈ Finset.range R, value i f * value i f) + eps))⁻¹ * sc f *
        (value r f * (Real.sqrt ((∑ i ∈ Finset.range R, value i f * value i f) + eps))⁻¹ * sc f) =
        value r f * value r f *
          ((Real.sqrt ((∑ i ∈ Finset.range R, value i f * value i f) + eps))⁻¹ *
            (Real.sqrt ((∑ i ∈ Finset.range R, value i f * value i f) + eps))⁻¹) *
          (sc f * sc f) :=
      fun r => by ring
    rw [Finset.sum_congr rfl fun r _ => hterm r, ← Finset.sum_mul, ← Finset.sum_mul]
    rw [show (∑ i ∈ Finset.range R, value i f * value i f) = S from rfl, hc2]
    rw [div_eq_mul_inv]
    ring
  refine ⟨ha, hb, ?_, ?_⟩
  · intro hS1
    rw [ha]
    have h := one_sub_sqrt_ratio_bounds S eps hS1 heps
    rw [abs_sub_comm, abs_of_nonneg h.1]
    exact h.2
  · intro sc hS1 hsc
    rw [hb sc]
    have h := one_sub_sqrt_ratio_bounds S eps hS1 heps
    have hq0 : 0 ≤ S / (S + eps) := div_nonneg hS0 (by linarith)
    rw [Real.sqrt_mul (mul_self_nonneg (sc f)), Real.sqrt_mul_self hsc]
    have : sc f * Real.sqrt (S / (S + eps)) - sc f =
        -(sc f * (1 - Real.sqrt (S / (S + eps)))) := by ring
    rw [this, abs_neg, abs_of_nonneg (mul_nonneg hsc h.1)]
    exact mul_le_mul_of_nonneg_left h.2 hsc

theorem weightNorm_column_norms_witness :
    (0 : ℝ) < 1 / 2 ∧ 1 ≤ l2NormSq (fun _ _ => (1 : ℝ)) 1 0 ∧
    |Real.sqrt (l2NormSq (weightNormValue (fun t => (Real.sqrt t)⁻¹) (1 / 2) 1
        (fun _ _ => (1 : ℝ)) none) 1 0) - 1| ≤ 1 / 2 := by
  have hS : 1 ≤ l2NormSq (fun _ _ => (1 : ℝ)) 1 0 := by
    norm_num [l2NormSq]
  exact ⟨by norm_num, hS,
    (weightNorm_column_norms (1 / 2) 1 (fun _ _ => (1 : ℝ)) 0 (by norm_num)).2.2.1 hS⟩

/-- Claim C5: the Gemma example `RMSNorm` on a zero-mean, unit-variance
input slice (mean of the last axis is 0 and mean of squares is 1, so the
root-mean-square is 1), with the `scale` parameter at its zero
initialization (effective multiplier `1 + 0 = 1`), returns the input
unchanged up to the `1e-06`-epsilon-governed rounding: the output entry
differs from the input entry by at most `1e-06` of its magnitude. -/
theorem gemmaRMSNorm_standardized_input_identity (D : ℕ) (x : ℕ → ℕ → ℝ)
    (b i : ℕ) (scale : ℕ → ℝ) (hscale : scale i = 0)
    (_hmean : (∑ j ∈ Finset.range D, x b j) = 0)
    (hvar : (∑ j ∈ Finset.range D, x b j * x b j) / (D : ℝ) = 1) :
    |gemmaRMSNormCall (fun t => (Real.sqrt t)⁻¹) D scale x b i - x b i| ≤
      1 / 1000000 * |x b i| := by
  have hout : gemmaRMSNormCall (fun t => (Real.sqrt t)⁻¹) D scale x b i =
      x b i * (Real.sqrt (1 + 1 / 1000000))⁻¹ := by
    unfold gemmaRMSNormCall
    rw [hvar, hscale]
    ring
  set t := Real.sqrt (1 + 1 / 1000000) with htdef
  have ht2 : t ^ 2 = 1 + 1 / 1000000 := Real.sq_sqrt (by norm_num)
  have ht1 : 1 ≤ t := by
    rw [htdef, show (1 : ℝ) = Real.sqrt 1 from Real.sqrt_one.symm]
    exact Real.sqrt_le_sqrt (by norm_num)
  have ht0 : 0 < t := by linarith
  have hinv1 : t⁻¹ ≤ 1 := inv_le_one_of_one_le₀ ht1
  have hinv0 : 0 < t⁻¹ := inv_pos.mpr ht0
  have hkey : 1 - t⁻¹ ≤ 1 / 1000000 := by
    rw [sub_le_iff_le_add, ← sub_le_iff_le_add']
    rw [inv_eq_one_div, le_div_iff₀ ht0]
    nlinarith
  rw [hout]
  have : x b i * t⁻¹ - x b i = -(x b i * (1 - t⁻¹)) := by ring
  rw [this, abs_neg, abs_mul, abs_of_nonneg (by linarith : (0 : ℝ) ≤ 1 - t⁻¹)]
  rw [mul_comm (1 / 1000000) |x b i|]
  exact mul_le_mul_of_nonneg_left hkey (abs_nonneg (x b i))

theorem gemmaRMSNorm_standardized_input_identity_witness :
    (fun _ : ℕ => (0 : ℝ)) 0 = 0 ∧
    (∑ j ∈ Finset.range 2, (fun _ j => if j = 0 then (1 : ℝ) else -1) 0 j) = 0 ∧
    (∑ j ∈ Finset.range 2, (fun _ j => if j = 0 then (1 : ℝ) else -1) 0 j *
        (fun _ j => if j = 0 then (1 : ℝ) else -1) 0 j) / (2 : ℝ) = 1 ∧
    |gemmaRMSNormCall (fun t => (Real.sqrt t)⁻¹) 2 (fun _ => 0)
        (fun _ j => if j = 0 then (1 : ℝ) else -1) 0 0 -
      (fun _ j => if j = 0 then (1 : ℝ) else -1) 0 0| ≤
      1 / 1000000 * |(fun _ j => if j = 0 then (1 : ℝ) else -1) 0 0| := by
  have h1 : (∑ j ∈ Finset.range 2, (fun _ j => if j = 0 then (1 : ℝ) else -1) 0 j) = 0 := by
    norm_num [Finset.sum_range_succ]
  have h2 : (∑ j ∈ Finset.range 2, (fun _ j => if j = 0 then (1 : ℝ) else -1) 0 j *
      (fun _ j => if j = 0 then (1 : ℝ) else -1) 0 j) / (2 : ℝ) = 1 := by
    norm_num [Finset.sum_range_succ]
  exact ⟨rfl, h1, h2,
    gemmaRMSNorm_standardized_input_identity 2
      (fun _ j => if j = 0 then (1 : ℝ) else -1) 0 0 (fun _ => 0) rfl h1 h2⟩
